import Mathlib

/-!
Verification of the kalah-agent repository's rules engine and search workers.

Shallow embedding conventions:
* `u16`/`u32` seed and ply counters are modelled as `Nat` (the Rust code runs
  with overflow checks, so wraparound is a panic, not a behaviour).
* `i32` scores are modelled as `Int`.
* Rust `assert!` failures (panics) on illegal moves are modelled by returning
  the input unchanged with no bonus move; every theorem about `apply_move`
  restricts itself to in-range moves out of non-empty houses, matching the
  documented precondition.
* The shared, mutex-guarded `search_active` flag is modelled as a boolean
  argument giving the value every read of the flag would observe during the
  call (cancellation is one-way, so a cancelled search reads `false`
  everywhere).  A worker that panics on cancellation is modelled with
  `Except String`, the error being the panic message.
-/

set_option autoImplicit false

namespace Kalah

/-- `Player` from `src/kalah/board.rs`: White or Black. -/
inductive Player where
  | White
  | Black
deriving DecidableEq, Repr

/-- `impl Not for Player`: flip the player, White -> Black and Black -> White. -/
def Player.not : Player → Player
  | .White => .Black
  | .Black => .White

/-- `Move` from `src/kalah/board.rs`: a house index plus the moving player
(the source packs both into one byte; we keep the two fields). -/
structure Move where
  house : Nat
  player : Player
deriving DecidableEq, Repr

/-- `Move::flip_player`: same house, opposite player. -/
def Move.flipPlayer (m : Move) : Move := ⟨m.house, m.player.not⟩

/-- `Valuation` from `src/kalah/valuation.rs`. -/
inductive Valuation where
  | NonTerminal (value : Int)
  | TerminalWhiteWin (plies : Nat)
  | TerminalBlackWin (plies : Nat)
  | TerminalDraw (plies : Nat)
deriving DecidableEq, Repr

/-- `Valuation::increase_plies`: bump the ply counter of terminal variants. -/
def Valuation.increasePlies : Valuation → Valuation
  | .NonTerminal v => .NonTerminal v
  | .TerminalWhiteWin p => .TerminalWhiteWin (p + 1)
  | .TerminalBlackWin p => .TerminalBlackWin (p + 1)
  | .TerminalDraw p => .TerminalDraw (p + 1)

/-- `impl Neg for Valuation`: flip the player perspective of the valuation. -/
def Valuation.neg : Valuation → Valuation
  | .NonTerminal v => .NonTerminal (-v)
  | .TerminalWhiteWin p => .TerminalBlackWin p
  | .TerminalBlackWin p => .TerminalWhiteWin p
  | .TerminalDraw p => .TerminalDraw p

/-- `Ord::cmp` on `u32` plies counters. -/
def natCmp (a b : Nat) : Ordering :=
  if a < b then .lt else if a = b then .eq else .gt

/-- `Ord::cmp` on `i32` scores. -/
def intCmp (a b : Int) : Ordering :=
  if a < b then .lt else if a = b then .eq else .gt

/-- `impl Ord for Valuation`: compare valuations from the perspective of White.
The match arms appear in the source's order; `Ordering::reverse` is `.swap`. -/
def Valuation.cmp : Valuation → Valuation → Ordering
  | .TerminalWhiteWin p1, .TerminalWhiteWin p2 => (natCmp p1 p2).swap
  | .TerminalWhiteWin _, _ => .gt
  | _, .TerminalWhiteWin _ => .lt
  | .NonTerminal v1, .NonTerminal v2 => intCmp v1 v2
  | .NonTerminal v, .TerminalDraw _ => intCmp v 0
  | .TerminalDraw _, .NonTerminal v => intCmp 0 v
  | .TerminalDraw p1, .TerminalDraw p2 => natCmp p1 p2
  | .TerminalBlackWin p1, .TerminalBlackWin p2 => natCmp p1 p2
  | .TerminalBlackWin _, _ => .lt
  | _, .TerminalBlackWin _ => .gt

/-- Rust `a < b` on valuations: the comparator returns `Less`. -/
def Valuation.ltv (a b : Valuation) : Prop := a.cmp b = .lt

instance (a b : Valuation) : Decidable (a.ltv b) := by
  unfold Valuation.ltv; infer_instance

/-- Whether a valuation is the `TerminalDraw` variant. -/
def Valuation.isTerminalDraw : Valuation → Bool
  | .TerminalDraw _ => true
  | _ => false

lemma natCmp_swap (a b : Nat) : (natCmp a b).swap = natCmp b a := by
  unfold natCmp
  split_ifs <;> first | rfl | (exfalso; omega)

lemma intCmp_swap (a b : Int) : (intCmp a b).swap = intCmp b a := by
  unfold intCmp
  split_ifs <;> first | rfl | (exfalso; omega)

lemma natCmp_eq_lt {a b : Nat} : natCmp a b = .lt ↔ a < b := by
  unfold natCmp
  split_ifs <;> simp_all

lemma intCmp_eq_lt {a b : Int} : intCmp a b = .lt ↔ a < b := by
  unfold intCmp
  split_ifs <;> simp_all

lemma natCmp_eq_gt {a b : Nat} : natCmp a b = .gt ↔ b < a := by
  unfold natCmp
  split_ifs <;> simp_all <;> omega

lemma intCmp_eq_gt {a b : Int} : intCmp a b = .gt ↔ b < a := by
  unfold intCmp
  split_ifs <;> simp_all <;> omega

lemma valuation_cmp_trans {a b c : Valuation}
    (hab : a.cmp b = .lt) (hbc : b.cmp c = .lt) : a.cmp c = .lt := by
  cases a <;> cases b <;> cases c <;>
    simp_all [Valuation.cmp, natCmp_swap, natCmp_eq_lt, intCmp_eq_lt] <;>
    omega

lemma valuation_cmp_antisymm (a b : Valuation) : a.cmp b = (b.cmp a).swap := by
  cases a <;> cases b <;>
    first
    | rfl
    | simp [Valuation.cmp, natCmp_swap, intCmp_swap]

lemma valuation_neg_neg (v : Valuation) : v.neg.neg = v := by
  cases v <;> simp [Valuation.neg]

lemma valuation_neg_reverses {a b : Valuation}
    (hlt : a.cmp b = .lt) (hdraw : ¬(a.isTerminalDraw ∧ b.isTerminalDraw)) :
    b.neg.cmp a.neg = .lt := by
  cases a <;> cases b <;>
    simp_all [Valuation.cmp, Valuation.neg, Valuation.isTerminalDraw,
      natCmp_swap, natCmp_eq_lt, intCmp_eq_lt]

lemma valuation_neg_preserves_draws {p q : Nat} (h : p < q) :
    (Valuation.TerminalDraw p).neg.cmp (Valuation.TerminalDraw q).neg = .lt := by
  simp_all [Valuation.cmp, Valuation.neg, natCmp_eq_lt]

/-! ## Board model (`src/kalah/board.rs`)

The source stores the 2·h houses in one allocation with two raw pointers
(`our_houses_ptr`, `their_houses_ptr`); a flip swaps the pointers.  We model
the two halves as two lists.  The stored field `h` always equals the length
of each half (`from_parts` asserts this), so we define `h` as the length of
the "our" half; well-formedness (`Board.WF`) states the halves have equal
length. -/

/-- `Board`: the authoritative game state, viewed from the current
perspective. -/
structure Board where
  ourHouses : List Nat
  theirHouses : List Nat
  ourStore : Nat
  theirStore : Nat
  flipped : Bool
deriving DecidableEq, Repr

/-- `Board::h()`: the number of houses per side. -/
def Board.h (b : Board) : Nat := b.ourHouses.length

/-- Well-formedness: the two halves of the allocation have the same length
(guaranteed by `Board::from_parts` in the source). -/
def Board.WF (b : Board) : Prop := b.theirHouses.length = b.ourHouses.length

instance (b : Board) : Decidable b.WF := by unfold Board.WF; infer_instance

/-- `Board::new(h, s)`: all 2h houses seeded to s, stores zero, default
perspective. -/
def Board.new (h s : Nat) : Board :=
  ⟨List.replicate h s, List.replicate h s, 0, 0, false⟩

/-- `Board::flip_board`: swap the house halves and the stores, toggle the
perspective flag. -/
def Board.flipBoard (b : Board) : Board :=
  { ourHouses := b.theirHouses
    theirHouses := b.ourHouses
    ourStore := b.theirStore
    theirStore := b.ourStore
    flipped := !b.flipped }

/-- `Board::has_legal_move`: both sides still own a non-empty house. -/
def Board.hasLegalMove (b : Board) : Bool :=
  b.ourHouses.any (fun house => house != 0) &&
    b.theirHouses.any (fun house => house != 0)

/-- `Board::legal_moves(player)`: one move per non-empty house of that side. -/
def Board.legalMoves (b : Board) (player : Player) : List Move :=
  let houses := match player with
    | .White => b.ourHouses
    | .Black => b.theirHouses
  (houses.enum.filter (fun p => p.2 != 0)).map (fun p => ⟨p.1, player⟩)

/-- `Board::is_legal_move`: the named house of the moving player is
non-empty. -/
def Board.isLegalMove (b : Board) (m : Move) : Bool :=
  match m.player with
  | .White => b.ourHouses.getD m.house 0 != 0
  | .Black => b.theirHouses.getD m.house 0 != 0

/-- `Board::finish_game`: sweep all remaining house seeds into the
respective stores and zero the houses. -/
def Board.finishGame (b : Board) : Board :=
  { b with
    ourStore := b.ourStore + b.ourHouses.sum
    theirStore := b.theirStore + b.theirHouses.sum
    ourHouses := b.ourHouses.map (fun _ => 0)
    theirHouses := b.theirHouses.map (fun _ => 0) }

/-- One sowing pass of `skip`/`take` iterator style: add one seed to each of
the `cnt` houses starting at index `start` (clipped to the list's end), as in
the `for ... in iter_mut().skip(start).take(cnt)` loops of `apply_move`. -/
def bumpSeg : List Nat → Nat → Nat → List Nat
  | [], _, _ => []
  | x :: xs, 0, 0 => x :: xs
  | x :: xs, 0, cnt + 1 => (x + 1) :: bumpSeg xs 0 cnt
  | x :: xs, start + 1, cnt => x :: bumpSeg xs start cnt

/-- The number of seeds such a pass actually places. -/
def segTake (len start cnt : Nat) : Nat := min cnt (len - start)

/-- The sowing phase of `Board::apply_move` (source lines 285-347), after the
moved house has been emptied: distribute `seeds` seeds over our houses after
`start`, our store, their houses, and our houses again, adding whole cycles
arithmetically when `seeds > 2h+1`.  Returns the updated
(our houses, our store, their houses). -/
def sowWhite (h : Nat) (our their : List Nat) (store : Nat) (start seeds : Nat) :
    List Nat × Nat × List Nat :=
  let cycleLength := 2 * h + 1
  let numCycles := seeds / cycleLength
  let rem0 := seeds % cycleLength
  -- distribute seeds to all houses and our store evenly (source: only when
  -- seeds_in_hand > cycle_length, a strict comparison)
  let cyc := seeds > cycleLength
  let our1 := if cyc then our.map (fun house => house + numCycles) else our
  let store1 := if cyc then store + numCycles else store
  let their1 := if cyc then their.map (fun house => house + numCycles) else their
  -- our houses after the starting house
  let our2 := bumpSeg our1 (start + 1) rem0
  let rem1 := rem0 - segTake our1.length (start + 1) rem0
  -- our store
  let store2 := if rem1 > 0 then store1 + 1 else store1
  let rem2 := if rem1 > 0 then rem1 - 1 else rem1
  -- their houses
  let their2 := bumpSeg their1 0 rem2
  let rem3 := rem2 - segTake their1.length 0 rem2
  -- our houses until the starting house
  let our3 := bumpSeg our2 0 rem3
  (our3, store2, their2)

/-- The board state right after the sowing phase of a White move from house
`start` (the moved house emptied and its seeds distributed). -/
def Board.sown (b : Board) (start : Nat) : Board :=
  let seeds := b.ourHouses.getD start 0
  let s := sowWhite b.h (b.ourHouses.set start 0) b.theirHouses b.ourStore start seeds
  { b with ourHouses := s.1, ourStore := s.2.1, theirHouses := s.2.2 }

/-- `last_house_idx` of `Board::apply_move`: position of the last sown seed in
the cycle (0..h our houses, h our store, above h their houses). -/
def Board.lastIdx (b : Board) (start : Nat) : Nat :=
  (start + b.ourHouses.getD start 0) % (2 * b.h + 1)

/-- The capture condition of `Board::apply_move`: last seed in one of our
houses, that house now holds exactly one seed (it held zero immediately
before the last seed landed), and the opposite house is non-empty. -/
def Board.captureCond (b : Board) (start : Nat) : Prop :=
  b.lastIdx start < b.h ∧
    (b.sown start).ourHouses.getD (b.lastIdx start) 0 = 1 ∧
    (b.sown start).theirHouses.getD (b.h - b.lastIdx start - 1) 0 > 0

instance (b : Board) (start : Nat) : Decidable (b.captureCond start) := by
  unfold Board.captureCond; infer_instance

/-- The board after the sowing and capture phases of a White move. -/
def Board.captured (b : Board) (start : Nat) : Board :=
  if b.captureCond start then
    { b.sown start with
      ourHouses := (b.sown start).ourHouses.set (b.lastIdx start) 0
      theirHouses := (b.sown start).theirHouses.set (b.h - b.lastIdx start - 1) 0
      ourStore := (b.sown start).ourStore +
        (b.sown start).theirHouses.getD (b.h - b.lastIdx start - 1) 0 + 1 }
  else b.sown start

/-- `Board::apply_move` for a White move (the default perspective): empty the
starting house, sow, capture if applicable, and finish the game if no legal
move remains.  Returns the new board and whether the mover gets a bonus move
(last seed in our store).  The source `assert!`s that the house is in range
and non-empty; those panics are modelled by returning the board unchanged
with no bonus move. -/
def Board.applyWhite (b : Board) (start : Nat) : Board × Bool :=
  if start < b.h ∧ b.ourHouses.getD start 0 ≠ 0 then
    -- if no moves remain: finish the board;
    -- if last seed in our store -> true (bonus move), else -> false
    (if (b.captured start).hasLegalMove then b.captured start
      else (b.captured start).finishGame,
      b.lastIdx start == b.h)
  else (b, false)

/-- `Board::apply_move`: a Black move flips the board, applies the
perspective-translated move as White, and flips back. -/
def Board.applyMove (b : Board) (m : Move) : Board × Bool :=
  match m.player with
  | .White => b.applyWhite m.house
  | .Black =>
    let r := b.flipBoard.applyWhite m.flipPlayer.house
    (r.1.flipBoard, r.2)

/-- Total number of seeds on the board: all houses plus both stores. -/
def Board.totalSeeds (b : Board) : Nat :=
  b.ourHouses.sum + b.theirHouses.sum + b.ourStore + b.theirStore

/-- Number of seeds still in houses (excluding the stores). -/
def Board.houseSum (b : Board) : Nat := b.ourHouses.sum + b.theirHouses.sum

/-! ## Lines (`src/pvs/search.rs`) -/

/-- `LINE_MAX_SIZE`: the fixed capacity of a `Line`. -/
def LINE_MAX_SIZE : Nat := 100

/-- `Line`: a bounded line of moves (principal variation).  The source keeps
a fixed `[Move; LINE_MAX_SIZE]` array plus a length `len`; we model the
meaningful prefix `moves[0..len]` as a list. -/
structure Line where
  moves : List Move
deriving DecidableEq, Repr

/-- `Line::new`: the empty line. -/
def Line.new : Line := ⟨[]⟩

/-- `Line::reset`: set the length back to zero. -/
def Line.reset (_ : Line) : Line := ⟨[]⟩

/-- `Line::append`: `assert!(self.len + other.len < LINE_MAX_SIZE)`, then
copy `other`'s moves after `self`'s.  The panic when the assertion fails is
modelled as `none`. -/
def Line.append (self other : Line) : Option Line :=
  if self.moves.length + other.moves.length < LINE_MAX_SIZE then
    some ⟨self.moves ++ other.moves⟩
  else none

/-- `Line::overwrite`: `assert!(tail.len < LINE_MAX_SIZE)`, replace the
line's content by the single move `head`, then `append` the tail (whose own
assertion requires `1 + tail.len < LINE_MAX_SIZE`).  The previous content of
the line is irrelevant, so it is not a parameter here. -/
def Line.overwrite (head : Move) (tail : Line) : Option Line :=
  if tail.moves.length < LINE_MAX_SIZE then (Line.mk [head]).append tail
  else none

/-- `Line::best_move`: the first move of the line, if any. -/
def Line.bestMove (self : Line) : Option Move := self.moves.head?

/-! ## Search workers

Every search worker recursion in the source terminates: a recursive call
either decreases `remaining_depth` (opponent turn) or keeps it and strictly
decreases the number of seeds left in houses (bonus turn, since the bonus
move banks at least one seed in the mover's store and stores never refill
the houses).  The embeddings below carry an explicit `fuel : Nat` argument
as that structural bound; running out of fuel yields `none`/`.error`, and
every theorem either quantifies over the fuel or exhibits a `some`/`.ok`
result, which shows the chosen fuel sufficed.  The pluggable
`valuation_fn` worker field is the explicit argument `vfn`, and the shared
`search_active` flag is the boolean `active`: the value every read of the
flag would observe during the call (cancellation only ever flips it to
`false`, so a cancelled search reads `false` throughout). -/

/-- Rust `a > b` on valuations (from `Ord::cmp`). -/
def Valuation.gtb (a b : Valuation) : Bool := a.cmp b == .gt

/-- Rust `a >= b` on valuations. -/
def Valuation.geb (a b : Valuation) : Bool := !(a.cmp b == .lt)

/-- Rust `a < b` on valuations. -/
def Valuation.ltb (a b : Valuation) : Bool := a.cmp b == .lt

/-- Rust `a <= b` on valuations. -/
def Valuation.leb (a b : Valuation) : Bool := !(a.cmp b == .gt)

/-- `store_diff_valuation` from `src/kalah/valuation.rs`: difference of the
stores, terminal (win/loss/draw in 0 plies by the sign of the difference)
when no legal move remains. -/
def storeDiffValuation (board : Board) : Valuation :=
  let ourStore : Int := board.ourStore
  let theirStore : Int := board.theirStore
  let storeDiff : Int := ourStore - theirStore
  if board.hasLegalMove = false then
    if storeDiff > 0 then .TerminalWhiteWin 0
    else if storeDiff < 0 then .TerminalBlackWin 0
    else .TerminalDraw 0
  else .NonTerminal storeDiff

/-- `MinimaxWorker::minimax` from `src/minimax2/search.rs`: plain full-width
negamax (the alpha-beta code is commented out in the source).  The source
holds the shared search state in `self` but NEVER reads the `search_active`
flag inside this recursion — only the iterative-deepening driver checks it
between root moves — so the `active` argument is unused; it is kept to state
the cancellation claims.  Returns the valuation and the number of nodes
visited (`total_nodes_visited` increments, which happen on entry before the
leaf check). -/
def minimax2Minimax (vfn : Board → Valuation) :
    Nat → Bool → Board → Nat → Option (Valuation × Nat)
  | 0, _, _, _ => none
  | fuel + 1, active, board, depth =>
    if depth = 0 ∨ board.hasLegalMove = false then some (vfn board, 1)
    else
      let st := (board.legalMoves .White).foldl
        (fun st nextMove =>
          match st with
          | none => none
          | some (best, nodes) =>
            let r := board.applyMove nextMove
            let theirNextMove := !r.2
            let nextBoard := if theirNextMove then r.1.flipBoard else r.1
            -- if next move is by opponent: decrease remaining_depth;
            -- if it's a bonus move, don't decrease
            let nextDepth := if theirNextMove then depth - 1 else depth
            match minimax2Minimax vfn fuel active nextBoard nextDepth with
            | none => none
            | some (theirValue, n) =>
              let value := if theirNextMove then theirValue.increasePlies.neg
                else theirValue.increasePlies
              some (if value.gtb best then value else best, nodes + n))
        (some (Valuation.TerminalBlackWin 0, 0))
      st.map (fun p => (p.1, p.2 + 1))

/-- Insert `x` into the already-sorted `acc` after every element `y` with
`le y x` — the insertion step of a stable insertion sort. -/
def orderedInsert {α : Type _} (le : α → α → Bool) : List α → α → List α
  | [], x => [x]
  | y :: ys, x => if le y x then y :: orderedInsert le ys x else x :: y :: ys

/-- A stable sort (insertion sort, processing elements left to right and
inserting each after its equals).  Rust's `sort_by` is likewise stable, and
two stable sorts of the same list under the same total preorder produce the
same output, so this is extensionally the source's sort. -/
def stableSort {α : Type _} (le : α → α → Bool) (l : List α) : List α :=
  l.foldl (orderedInsert le) []

/-- The `child_states` precomputation and sort of
`MinimaxWorker::<ALPHA_BETA_PRUNE>::minimax` in
`src/minimax_move_ordering/search.rs`: each legal White move's board (flipped
to the mover's perspective when the opponent moves next) with its
`their_next_move` tag, stably sorted so that opponent-turn children come
first (the comparator returns `Less` on `(true, false)` — despite the
source's comment about searching bonus moves first). -/
def sortedChildStates (board : Board) : List (Board × Bool) :=
  let childStates := (board.legalMoves .White).map
    (fun legalMove =>
      let r := board.applyMove legalMove
      let theirNextMove := !r.2
      ((if theirNextMove then r.1.flipBoard else r.1), theirNextMove))
  -- move ordering: the comparator returns Less on (true, false), so
  -- opponent-turn children sort first (stable)
  stableSort (fun c1 c2 => !(c1.2 == false && c2.2 == true)) childStates

/-- `MinimaxWorker::<ALPHA_BETA_PRUNE>::minimax` from
`src/minimax_move_ordering/search.rs`: negamax over the sorted child states,
where the alpha update and the beta cutoff run only when the `prune` const
generic is on.  This recursion never reads the shared flag. -/
def moMinimax (vfn : Board → Valuation) :
    Nat → Bool → Board → Nat → Valuation → Valuation → Option Valuation
  | 0, _, _, _, _, _ => none
  | fuel + 1, prune, board, depth, alpha0, beta =>
    if depth = 0 ∨ board.hasLegalMove = false then some (vfn board)
    else
      let st := (sortedChildStates board).foldl
        (fun st child =>
          match st with
          | none => none
          | some (best, alpha, cut) =>
            if cut then some (best, alpha, cut)
            else
              let rv := if child.2 then
                  (moMinimax vfn fuel prune child.1 (depth - 1) beta.neg alpha.neg).map
                    (fun v => v.increasePlies.neg)
                else
                  (moMinimax vfn fuel prune child.1 depth alpha beta).map
                    (fun v => v.increasePlies)
              match rv with
              | none => none
              | some value =>
                let best1 := if value.gtb best then value else best
                let alpha1 := if prune && value.gtb alpha then value else alpha
                let cut1 := prune && value.geb beta
                some (best1, alpha1, cut1))
        (some (Valuation.TerminalBlackWin 0, alpha0, false))
      st.map (fun p => p.1)

/-- Modelled from the spec's words for the no-pruning comparison point: a
"plain full-width minimax" — the same recursion as `moMinimax` with the
alpha-beta machinery removed altogether (no `alpha`/`beta` arguments, no
cutoff, no window). -/
def fullWidthMinimax (vfn : Board → Valuation) :
    Nat → Board → Nat → Option Valuation
  | 0, _, _ => none
  | fuel + 1, board, depth =>
    if depth = 0 ∨ board.hasLegalMove = false then some (vfn board)
    else
      let st := (sortedChildStates board).foldl
        (fun st child =>
          match st with
          | none => none
          | some best =>
            let rv := if child.2 then
                (fullWidthMinimax vfn fuel child.1 (depth - 1)).map
                  (fun v => v.increasePlies.neg)
              else
                (fullWidthMinimax vfn fuel child.1 depth).map
                  (fun v => v.increasePlies)
            match rv with
            | none => none
            | some value => some (if value.gtb best then value else best))
        (some (Valuation.TerminalBlackWin 0))
      st

mutual

/-- `MinimaxWorker::maximise` from `src/minimax_reference/search.rs`:
alpha-beta from White's point of view over White's legal moves (no board
flipping; the Black side is handled by the mutually recursive `minimise`).
Observing `search_active == false` PANICS in the source
("Could not complete minimax search to level 6"); the panic is modelled as
`.error` with that message. -/
def refMaximise (vfn : Board → Valuation) :
    Nat → Bool → Board → Nat → Valuation → Valuation →
      Except String (Move × Valuation)
  | 0, _, _, _, _, _ => .error "out of fuel"
  | fuel + 1, active, board, depth, alpha0, beta =>
    if active = false then .error "Could not complete minimax search to level 6"
    else if depth = 0 ∨ board.hasLegalMove = false then
      .ok (⟨127, .White⟩, vfn board)
    else
      let st := (board.legalMoves .White).foldl
        (fun st mv =>
          match st with
          | .error e => .error e
          | .ok (bestMove, bestValue, alpha, cut) =>
            if cut then .ok (bestMove, bestValue, alpha, cut)
            else
              let r := board.applyMove mv
              let theirTurn := !r.2
              let rec1 := if theirTurn then
                  refMinimise vfn fuel active r.1 (depth - 1) alpha beta
                else refMaximise vfn fuel active r.1 depth alpha beta
              match rec1 with
              | .error e => .error e
              | .ok (_, v) =>
                let value := v.increasePlies
                let bestMove1 := if value.gtb bestValue then mv else bestMove
                let bestValue1 := if value.gtb bestValue then value else bestValue
                let cut1 := bestValue1.geb beta
                let alpha1 := if !cut1 && bestValue1.gtb alpha then bestValue1 else alpha
                .ok (bestMove1, bestValue1, alpha1, cut1))
        ((.ok (⟨127, .White⟩, Valuation.TerminalBlackWin 0, alpha0, false)) :
          Except String (Move × Valuation × Valuation × Bool))
      st.map (fun p => (p.1, p.2.1))

/-- `MinimaxWorker::minimise` from `src/minimax_reference/search.rs`: the
Black half of the reference alpha-beta search; also panics when it observes
an inactive flag. -/
def refMinimise (vfn : Board → Valuation) :
    Nat → Bool → Board → Nat → Valuation → Valuation →
      Except String (Move × Valuation)
  | 0, _, _, _, _, _ => .error "out of fuel"
  | fuel + 1, active, board, depth, alpha, beta0 =>
    if active = false then .error "Could not complete minimax search to level 6"
    else if depth = 0 ∨ board.hasLegalMove = false then
      .ok (⟨127, .Black⟩, vfn board)
    else
      let st := (board.legalMoves .Black).foldl
        (fun st mv =>
          match st with
          | .error e => .error e
          | .ok (bestMove, bestValue, beta, cut) =>
            if cut then .ok (bestMove, bestValue, beta, cut)
            else
              let r := board.applyMove mv
              let theirTurn := !r.2
              let rec1 := if theirTurn then
                  refMaximise vfn fuel active r.1 (depth - 1) alpha beta
                else refMinimise vfn fuel active r.1 depth alpha beta
              match rec1 with
              | .error e => .error e
              | .ok (_, v) =>
                let value := v.increasePlies
                let bestMove1 := if value.ltb bestValue then mv else bestMove
                let bestValue1 := if value.ltb bestValue then value else bestValue
                let cut1 := bestValue1.leb alpha
                let beta1 := if !cut1 && bestValue1.ltb beta then bestValue1 else beta
                .ok (bestMove1, bestValue1, beta1, cut1))
        ((.ok (⟨127, .Black⟩, Valuation.TerminalWhiteWin 0, beta0, false)) :
          Except String (Move × Valuation × Valuation × Bool))
      st.map (fun p => (p.1, p.2.1))

end

/-- `PVSWorker::minimax` from `src/pvs/search.rs`: negamax with alpha-beta
and a principal-variation `Line` out-parameter.  Observing an inactive flag
returns `NonTerminal 0` immediately, leaving the line untouched.  Returns
(value, final contents of `principal_line`, nodes visited); `Line` assertion
failures (panics) are `.error`. -/
def pvsMinimax (vfn : Board → Valuation) :
    Nat → Bool → Board → Nat → Valuation → Valuation → Line →
      Except String (Valuation × Line × Nat)
  | 0, _, _, _, _, _, _ => .error "out of fuel"
  | fuel + 1, active, board, depth, alpha0, beta, principalLine =>
    if active = false then
      -- search has been ended, search results don't matter anymore
      .ok (.NonTerminal 0, principalLine, 0)
    else if depth = 0 ∨ board.hasLegalMove = false then
      .ok (vfn board, principalLine.reset, 1)
    else
      let st := (List.range board.h).foldl
        (fun st house =>
          match st with
          | .error e => .error e
          | .ok (bestValue, alpha, pLine, sLine, nodes, cut) =>
            if cut then .ok (bestValue, alpha, pLine, sLine, nodes, cut)
            else
              let mv : Move := ⟨house, .White⟩
              if board.isLegalMove mv = false then
                .ok (bestValue, alpha, pLine, sLine, nodes, cut)
              else
                let r := board.applyMove mv
                let theirTurn := !r.2
                let rec1 := if theirTurn then
                    (pvsMinimax vfn fuel active r.1.flipBoard (depth - 1)
                        beta.neg alpha.neg sLine).map
                      (fun q => (q.1.neg, q.2))
                  else pvsMinimax vfn fuel active r.1 depth alpha beta sLine
                match rec1 with
                | .error e => .error e
                | .ok (v, sLine1, n) =>
                  let value := v.increasePlies
                  let bestValue1 := if value.geb bestValue then value else bestValue
                  if value.gtb beta then
                    -- beta cutoff, return early
                    .ok (bestValue1, alpha, pLine, sLine1, nodes + n, true)
                  else if bestValue1.gtb alpha then
                    -- we beat the current pv: overwrite pv with current line
                    match Line.overwrite mv sLine1 with
                    | none => .error "Line overflow"
                    | some pLine1 =>
                      .ok (bestValue1, value, pLine1, sLine1, nodes + n, false)
                  else .ok (bestValue1, alpha, pLine, sLine1, nodes + n, false))
        ((.ok (Valuation.TerminalBlackWin 0, alpha0, principalLine, Line.new, 0, false)) :
          Except String (Valuation × Valuation × Line × Line × Nat × Bool))
      st.map (fun p => (p.1, p.2.2.1, p.2.2.2.2.1 + 1))

/-! ### Supporting lemmas about the list-level sowing operations -/

lemma bumpSeg_length (l : List Nat) (start cnt : Nat) :
    (bumpSeg l start cnt).length = l.length := by
  induction l generalizing start cnt with
  | nil => simp [bumpSeg]
  | cons x xs ih =>
    cases start with
    | zero =>
      cases cnt with
      | zero => simp [bumpSeg]
      | succ c => simp [bumpSeg, ih]
    | succ s => simp [bumpSeg, ih]

lemma bumpSeg_sum (l : List Nat) (start cnt : Nat) :
    (bumpSeg l start cnt).sum = l.sum + min cnt (l.length - start) := by
  induction l generalizing start cnt with
  | nil => simp [bumpSeg]
  | cons x xs ih =>
    cases start with
    | zero =>
      cases cnt with
      | zero => simp [bumpSeg]
      | succ c => simp only [bumpSeg, List.sum_cons, ih, List.length_cons]; omega
    | succ s => simp only [bumpSeg, List.sum_cons, ih, List.length_cons]; omega

lemma sum_map_add (l : List Nat) (q : Nat) :
    (l.map (fun house => house + q)).sum = l.sum + q * l.length := by
  induction l with
  | nil => simp
  | cons x xs ih => simp [ih]; ring

lemma sum_map_zero (l : List Nat) : (l.map (fun _ => (0 : Nat))).sum = 0 := by
  induction l with
  | nil => simp
  | cons x xs ih => simp [ih]

lemma sum_set_zero (l : List Nat) (i : Nat) :
    (l.set i 0).sum + l.getD i 0 = l.sum := by
  induction l generalizing i with
  | nil => simp
  | cons x xs ih =>
    cases i with
    | zero => simp [List.set]; omega
    | succ j =>
      simp only [List.set, List.sum_cons, List.getD_cons_succ]
      have := ih j
      omega

lemma getD_le_sum (l : List Nat) (i : Nat) : l.getD i 0 ≤ l.sum := by
  induction l generalizing i with
  | nil => simp
  | cons x xs ih =>
    cases i with
    | zero => simp only [List.getD_cons_zero, List.sum_cons]; omega
    | succ j =>
      simp only [List.getD_cons_succ, List.sum_cons]
      have := ih j
      omega

lemma sowWhite_our_length (h : Nat) (our their : List Nat) (store start seeds : Nat) :
    (sowWhite h our their store start seeds).1.length = our.length := by
  simp only [sowWhite]
  rw [bumpSeg_length, bumpSeg_length]
  split <;> simp

lemma sowWhite_their_length (h : Nat) (our their : List Nat) (store start seeds : Nat) :
    (sowWhite h our their store start seeds).2.2.length = their.length := by
  simp only [sowWhite]
  rw [bumpSeg_length]
  split <;> simp

lemma sown_our_length (b : Board) (start : Nat) :
    (b.sown start).ourHouses.length = b.ourHouses.length := by
  simp [Board.sown, sowWhite_our_length]

lemma sown_their_length (b : Board) (start : Nat) :
    (b.sown start).theirHouses.length = b.theirHouses.length := by
  simp [Board.sown, sowWhite_their_length]

lemma sown_frame (b : Board) (start : Nat) :
    (b.sown start).theirStore = b.theirStore ∧ (b.sown start).flipped = b.flipped := by
  simp [Board.sown]

lemma captured_our_length (b : Board) (start : Nat) :
    (b.captured start).ourHouses.length = b.ourHouses.length := by
  unfold Board.captured
  split <;> simp [sown_our_length]

lemma captured_their_length (b : Board) (start : Nat) :
    (b.captured start).theirHouses.length = b.theirHouses.length := by
  unfold Board.captured
  split <;> simp [sown_their_length]

lemma captured_frame (b : Board) (start : Nat) :
    (b.captured start).theirStore = b.theirStore ∧
      (b.captured start).flipped = b.flipped := by
  unfold Board.captured
  split <;> simp [Board.sown]

lemma finishGame_lengths (b : Board) :
    b.finishGame.ourHouses.length = b.ourHouses.length ∧
      b.finishGame.theirHouses.length = b.theirHouses.length ∧
      b.finishGame.flipped = b.flipped := by
  simp [Board.finishGame]

lemma applyWhite_frame (b : Board) (start : Nat) :
    (b.applyWhite start).1.ourHouses.length = b.ourHouses.length ∧
      (b.applyWhite start).1.theirHouses.length = b.theirHouses.length ∧
      (b.applyWhite start).1.flipped = b.flipped := by
  unfold Board.applyWhite
  split
  · split
    · exact ⟨captured_our_length b start, captured_their_length b start,
        (captured_frame b start).2⟩
    · refine ⟨?_, ?_, ?_⟩
      · rw [(finishGame_lengths _).1, captured_our_length]
      · rw [(finishGame_lengths _).2.1, captured_their_length]
      · rw [(finishGame_lengths _).2.2, (captured_frame b start).2]
  · exact ⟨rfl, rfl, rfl⟩

lemma any_ne_eq_not_all_eq (l : List Nat) :
    (l.any fun x => x != 0) = !(l.all fun x => x == 0) := by
  induction l with
  | nil => rfl
  | cons x xs ih =>
    simp only [List.any_cons, List.all_cons, ih, Bool.not_and]
    rfl

lemma all_eq_zero_map_zero (l : List Nat) :
    ((l.map fun _ => (0 : Nat)).all fun x => x == 0) = true := by
  simp [List.all_eq_true]

lemma hasLegalMove_eq_false_iff (b : Board) :
    b.hasLegalMove = false ↔
      ((b.ourHouses.all fun x => x == 0) = true ∨
        (b.theirHouses.all fun x => x == 0) = true) := by
  unfold Board.hasLegalMove
  rw [any_ne_eq_not_all_eq, any_ne_eq_not_all_eq]
  cases h1 : (b.ourHouses.all fun x => x == 0) <;>
    cases h2 : (b.theirHouses.all fun x => x == 0) <;> simp

lemma legal_start_lt_length {b : Board} {start : Nat}
    (hleg : b.ourHouses.getD start 0 ≠ 0) : start < b.ourHouses.length := by
  by_contra hc
  exact hleg (List.getD_eq_default _ _ (Nat.le_of_not_lt hc))

lemma applyWhite_sides (b : Board) (start : Nat)
    (hleg : b.ourHouses.getD start 0 ≠ 0) :
    ((b.applyWhite start).1.ourHouses.all fun x => x == 0) =
      ((b.applyWhite start).1.theirHouses.all fun x => x == 0) := by
  unfold Board.applyWhite
  rw [if_pos ⟨legal_start_lt_length hleg, hleg⟩]
  cases hm : (b.captured start).hasLegalMove with
  | false =>
    simp only [hm, Bool.false_eq_true, if_false]
    simp [Board.finishGame, all_eq_zero_map_zero]
  | true =>
    simp only [hm, if_true]
    have := hm
    unfold Board.hasLegalMove at this
    rw [any_ne_eq_not_all_eq, any_ne_eq_not_all_eq] at this
    cases h1 : ((b.captured start).ourHouses.all fun x => x == 0) <;>
      cases h2 : ((b.captured start).theirHouses.all fun x => x == 0) <;>
      simp_all

lemma applyMove_sides (b : Board) (m : Move) (hleg : b.isLegalMove m = true) :
    ((b.applyMove m).1.ourHouses.all fun x => x == 0) =
      ((b.applyMove m).1.theirHouses.all fun x => x == 0) := by
  obtain ⟨house, player⟩ := m
  cases player with
  | White =>
    simp only [Board.isLegalMove, bne_iff_ne, ne_eq] at hleg
    exact applyWhite_sides b house hleg
  | Black =>
    simp only [Board.isLegalMove, bne_iff_ne, ne_eq] at hleg
    have hflip : b.flipBoard.ourHouses.getD house 0 ≠ 0 := hleg
    have h := applyWhite_sides b.flipBoard house hflip
    simp only [Board.applyMove, Move.flipPlayer, Player.not, Board.flipBoard]
    exact h.symm

instance {e a : Type _} [DecidableEq e] [DecidableEq a] :
    DecidableEq (Except e a)
  | .error e1, .error e2 =>
    if h : e1 = e2 then .isTrue (congrArg Except.error h)
    else .isFalse (fun hc => h (Except.error.inj hc))
  | .error _, .ok _ => .isFalse (fun hc => Except.noConfusion hc)
  | .ok _, .error _ => .isFalse (fun hc => Except.noConfusion hc)
  | .ok a1, .ok a2 =>
    if h : a1 = a2 then .isTrue (congrArg Except.ok h)
    else .isFalse (fun hc => h (Except.ok.inj hc))

/-! ### Supporting lemmas about the search workers -/

lemma pvsMinimax_cancelled (vfn : Board → Valuation) (fuel : Nat) (b : Board)
    (d : Nat) (a beta : Valuation) (line : Line) :
    pvsMinimax vfn (fuel + 1) false b d a beta line =
      .ok (.NonTerminal 0, line, 0) := rfl

lemma refMaximise_cancelled (vfn : Board → Valuation) (fuel : Nat) (b : Board)
    (d : Nat) (a beta : Valuation) :
    refMaximise vfn (fuel + 1) false b d a beta =
      .error "Could not complete minimax search to level 6" := rfl

lemma refMinimise_cancelled (vfn : Board → Valuation) (fuel : Nat) (b : Board)
    (d : Nat) (a beta : Valuation) :
    refMinimise vfn (fuel + 1) false b d a beta =
      .error "Could not complete minimax search to level 6" := rfl

lemma minimax2_flag_independent (vfn : Board → Valuation) (fuel : Nat) :
    ∀ (a1 a2 : Bool) (b : Board) (d : Nat),
      minimax2Minimax vfn fuel a1 b d = minimax2Minimax vfn fuel a2 b d := by
  induction fuel with
  | zero => intro a1 a2 b d; rfl
  | succ fuel ih =>
    intro a1 a2 b d
    have ih2 : ∀ (b : Board) (d : Nat),
        minimax2Minimax vfn fuel a1 b d = minimax2Minimax vfn fuel a2 b d :=
      fun b d => ih a1 a2 b d
    simp only [minimax2Minimax, ih2]

lemma foldl_none_fixed {σ α : Type _} (f : Option σ → α → Option σ)
    (hf : ∀ x, f none x = none) (l : List α) : l.foldl f none = none := by
  induction l with
  | nil => rfl
  | cons x xs ih => rw [List.foldl_cons, hf]; exact ih

/-! ## Claim theorems -/

/-- C9: for every board `b`, flipping twice restores `b` exactly: every house
count, `our_store`, `their_store`, and the perspective flag all equal their
original values. -/
theorem flip_board_involution (b : Board) : b.flipBoard.flipBoard = b := by
  cases b
  simp [Board.flipBoard]

/-- C1: seed conservation fails on the code.  On the board with one house per
side, our house holding 3 seeds and their house 1 seed, the legal White move
from house 0 has `seeds_in_hand` equal to `cycle_length = 2h+1 = 3`; the code
only distributes the whole-cycle share when `seeds_in_hand > cycle_length`
(strict), so all 3 sown seeds vanish and the total drops from 4 to 1.
`finish_game` itself does conserve the total, as the last conjunct shows. -/
theorem seed_conservation_bug :
    (Board.mk [3] [1] 0 0 false).totalSeeds = 4 ∧
      (Board.mk [3] [1] 0 0 false).isLegalMove ⟨0, .White⟩ = true ∧
      ((Board.mk [3] [1] 0 0 false).applyMove ⟨0, .White⟩).1.totalSeeds = 1 ∧
      (∀ b : Board, b.finishGame.totalSeeds = b.totalSeeds) := by
  refine ⟨by decide, by decide, by decide, fun b => ?_⟩
  simp only [Board.finishGame, Board.totalSeeds, sum_map_zero]
  omega

/-- C3 counterexample: on the one-house board with our house = [1] and their
house = [2], the White move from house 0 leaves, right before the finish
check, our side empty but their side still holding 2 seeds — exactly one
side non-empty.  The claim says such a board is not finished, yet the code
invokes `finish_game`: the final board has all houses zeroed and the 2 seeds
swept into their store. -/
theorem finish_trigger_claim_cex :
    (Board.mk [1] [2] 0 0 false).applyMove ⟨0, .White⟩ =
        (Board.mk [0] [0] 1 2 false, true) ∧
      ((Board.mk [1] [2] 0 0 false).captured 0).ourHouses = [0] ∧
      ((Board.mk [1] [2] 0 0 false).captured 0).theirHouses = [2] ∧
      ((Board.mk [1] [2] 0 0 false).captured 0).theirStore = 0 := by decide

/-- C3 (amended): `has_legal_move` is false exactly when at least one side's
houses are all empty (it is the conjunction of both sides owning a non-empty
house), and `apply_move` finishes the game exactly in that case, so a board
returned by `apply_move` either has a non-empty house on both sides or is
completely swept: one side's houses are all zero iff the other side's are. -/
theorem finish_trigger_amended :
    (∀ b : Board, b.hasLegalMove = false ↔
        ((b.ourHouses.all fun x => x == 0) = true ∨
          (b.theirHouses.all fun x => x == 0) = true)) ∧
      (∀ (b : Board) (m : Move), b.isLegalMove m = true →
        ((b.applyMove m).1.ourHouses.all fun x => x == 0) =
          ((b.applyMove m).1.theirHouses.all fun x => x == 0)) :=
  ⟨hasLegalMove_eq_false_iff, applyMove_sides⟩

/-- C3 witness: the finish-trigger facts applied at concrete boards. -/
theorem finish_trigger_amended_witness :
    ((Board.mk [0, 0] [1, 2] 3 4 false).hasLegalMove = false ↔
        (((Board.mk [0, 0] [1, 2] 3 4 false).ourHouses.all fun x => x == 0) = true ∨
          ((Board.mk [0, 0] [1, 2] 3 4 false).theirHouses.all fun x => x == 0) = true)) ∧
      (((Board.mk [1] [2] 0 0 false).applyMove ⟨0, .White⟩).1.ourHouses.all
          fun x => x == 0) =
        (((Board.mk [1] [2] 0 0 false).applyMove ⟨0, .White⟩).1.theirHouses.all
          fun x => x == 0) :=
  ⟨finish_trigger_amended.1 (Board.mk [0, 0] [1, 2] 3 4 false),
    finish_trigger_amended.2 (Board.mk [1] [2] 0 0 false) ⟨0, .White⟩ (by decide)⟩

/-- C5 counterexample: on the board with mover houses [1,0,5] and opponent
houses [0,1,0], the White move from house 0 satisfies the claim's capture
hypotheses (last seed lands in our house 1, which held zero before, and the
opposite house holds 1), so the claim predicts mover store = 0 + 1 + 1 = 2.
But the capture leaves the opponent with no seeds, `finish_game` fires, and
the mover's store ends at 7. -/
theorem capture_claim_cex :
    (Board.mk [1, 0, 5] [0, 1, 0] 0 0 false).applyMove ⟨0, .White⟩ =
        (Board.mk [0, 0, 0] [0, 0, 0] 7 0 false, false) ∧
      (Board.mk [1, 0, 5] [0, 1, 0] 0 0 false).captureCond 0 ∧
      ((Board.mk [1, 0, 5] [0, 1, 0] 0 0 false).applyMove ⟨0, .White⟩).1.ourStore ≠ 2 := by
  decide

/-- C5 (amended): under the capture condition (the last sown seed lands in
one of the mover's own houses now holding exactly one seed — i.e. it held
zero immediately before landing — with the directly opposite opponent house
non-empty), the capture phase empties both houses and adds
1 + (opposite count) to the mover's store, the move earns no bonus, and the
final board is that capture result, additionally swept by `finish_game` when
it leaves one side without seeds. -/
theorem capture_rule_amended (b : Board) (start : Nat)
    (hleg : b.ourHouses.getD start 0 ≠ 0) (hcap : b.captureCond start) :
    (b.captured start).ourHouses = (b.sown start).ourHouses.set (b.lastIdx start) 0 ∧
      (b.captured start).theirHouses =
        (b.sown start).theirHouses.set (b.h - b.lastIdx start - 1) 0 ∧
      (b.captured start).ourStore = (b.sown start).ourStore +
        (b.sown start).theirHouses.getD (b.h - b.lastIdx start - 1) 0 + 1 ∧
      (b.captured start).theirStore = b.theirStore ∧
      (b.captured start).flipped = b.flipped ∧
      (b.applyWhite start).1 =
        (if (b.captured start).hasLegalMove then b.captured start
          else (b.captured start).finishGame) ∧
      (b.applyWhite start).2 = false := by
  have hmain : b.captured start =
      { b.sown start with
        ourHouses := (b.sown start).ourHouses.set (b.lastIdx start) 0
        theirHouses := (b.sown start).theirHouses.set (b.h - b.lastIdx start - 1) 0
        ourStore := (b.sown start).ourStore +
          (b.sown start).theirHouses.getD (b.h - b.lastIdx start - 1) 0 + 1 } := by
    unfold Board.captured
    rw [if_pos hcap]
  refine ⟨by rw [hmain], by rw [hmain], by rw [hmain], ?_, ?_, ?_, ?_⟩
  · rw [hmain]; exact (sown_frame b start).1
  · rw [hmain]; exact (sown_frame b start).2
  · unfold Board.applyWhite
    rw [if_pos ⟨legal_start_lt_length hleg, hleg⟩]
  · unfold Board.applyWhite
    rw [if_pos ⟨legal_start_lt_length hleg, hleg⟩]
    exact beq_eq_false_iff_ne.mpr (Nat.ne_of_lt hcap.1)

/-- C5 witness: scenario B of the spec, where no sweep follows the capture:
mover houses [1,0,2], opponent houses [2,2,2], stores 0/0; the White move
from house 0 captures against opposite house 1 and yields mover houses
[0,0,2], opponent houses [2,0,2], mover store 3, opponent store 0. -/
theorem capture_rule_amended_witness :
    ((Board.mk [1, 0, 2] [2, 2, 2] 0 0 false).applyWhite 0).1 =
        Board.mk [0, 0, 2] [2, 0, 2] 3 0 false ∧
      ((Board.mk [1, 0, 2] [2, 2, 2] 0 0 false).applyWhite 0).2 = false := by
  have h := capture_rule_amended (Board.mk [1, 0, 2] [2, 2, 2] 0 0 false) 0
    (by decide) (by decide)
  refine ⟨?_, h.2.2.2.2.2.2⟩
  rw [h.2.2.2.2.2.1]
  decide

/-- C10: for every well-formed board and every in-range legal move of either
player, `apply_move` preserves the house count `h`, preserves
well-formedness, and returns with the perspective flag equal to its pre-call
value (the Black path flips, applies the translated White move, and flips
back). -/
theorem apply_move_frame (b : Board) (m : Move) (hwf : b.WF)
    (hrange : m.house < b.h) (hleg : b.isLegalMove m = true) :
    (b.applyMove m).1.h = b.h ∧ (b.applyMove m).1.flipped = b.flipped ∧
      (b.applyMove m).1.WF := by
  obtain ⟨house, player⟩ := m
  cases player with
  | White =>
    have h := applyWhite_frame b house
    simp only [Board.applyMove]
    unfold Board.h Board.WF at *
    exact ⟨h.1, h.2.2, by rw [h.2.1, h.1]; exact hwf⟩
  | Black =>
    have h := applyWhite_frame b.flipBoard house
    simp only [Board.applyMove, Move.flipPlayer, Player.not]
    unfold Board.h Board.WF at *
    simp only [Board.flipBoard] at *
    refine ⟨h.2.1, ?_, ?_⟩
    · rw [h.2.2]; simp
    · rw [h.1, h.2.1]; exact hwf

/-- C10 witness: the frame facts at a concrete board and Black move. -/
theorem apply_move_frame_witness :
    ((Board.mk [1, 2] [3, 4] 0 0 false).applyMove ⟨1, .Black⟩).1.h = 2 ∧
      ((Board.mk [1, 2] [3, 4] 0 0 false).applyMove ⟨1, .Black⟩).1.flipped = false ∧
      ((Board.mk [1, 2] [3, 4] 0 0 false).applyMove ⟨1, .Black⟩).1.WF :=
  apply_move_frame (Board.mk [1, 2] [3, 4] 0 0 false) ⟨1, .Black⟩
    (by decide) (by decide) (by decide)

/-- C8 (amended): with `ALPHA_BETA_PRUNE = false` the move-ordering search
ignores its alpha and beta arguments entirely and computes the plain
full-width minimax value over its sorted children — for every valuation
function, every fuel, every board, every depth and every window. -/
theorem no_pruning_is_full_width (vfn : Board → Valuation) (fuel : Nat) :
    ∀ (b : Board) (d : Nat) (a beta : Valuation),
      moMinimax vfn fuel false b d a beta = fullWidthMinimax vfn fuel b d := by
  induction fuel with
  | zero => intro b d a beta; rfl
  | succ fuel ih =>
    intro b d a beta
    simp only [moMinimax, fullWidthMinimax]
    by_cases hleaf : d = 0 ∨ b.hasLegalMove = false
    · rw [if_pos hleaf, if_pos hleaf]
    · rw [if_neg hleaf, if_neg hleaf]
      generalize (Valuation.TerminalBlackWin 0 : Valuation) = best0
      generalize sortedChildStates b = L
      induction L generalizing best0 a with
      | nil => rfl
      | cons c cs ihL =>
        simp only [List.foldl_cons]
        rcases hc2 : c.2 with _ | _
        · -- bonus move child: recurse at the same depth
          simp only [hc2, Bool.false_eq_true, if_false]
          rw [ih]
          rcases hrv : Option.map (fun v => v.increasePlies)
              (fullWidthMinimax vfn fuel c.1 d) with _ | value
          · simp only [hrv]
            clear hrv ihL
            induction cs with
            | nil => rfl
            | cons x xs ihx => simp only [List.foldl_cons]; exact ihx
          · simp only [hrv, Bool.false_and, Bool.false_eq_true, if_false]
            exact ihL a _
        · -- opponent child: recurse one level deeper, window flipped
          simp only [hc2, if_true]
          rw [ih]
          rcases hrv : Option.map (fun v => v.increasePlies.neg)
              (fullWidthMinimax vfn fuel c.1 (d - 1)) with _ | value
          · simp only [hrv]
            clear hrv ihL
            induction cs with
            | nil => rfl
            | cons x xs ihx => simp only [List.foldl_cons]; exact ihx
          · simp only [hrv, Bool.false_and, Bool.false_eq_true, if_false]
            exact ihL a _

/-- C8 counterexample: on the board with our houses [1,2] and their houses
[2,1] at depth 3 (full window), the move-ordering search with pruning
disabled returns `TerminalDraw 5` while the reference `maximise`/`minimise`
search returns `TerminalDraw 4` — different root values (the reference
prunes with alpha-beta and visits children unsorted, so it resolves
`cmp`-ties and ply counters differently).  The plain `minimax2` full-width
search agrees with the no-pruning value, as the last conjunct shows. -/
theorem no_pruning_claim_cex :
    moMinimax storeDiffValuation 12 false (Board.mk [1, 2] [2, 1] 0 0 false) 3
        (.TerminalBlackWin 0) (.TerminalWhiteWin 0) =
      some (.TerminalDraw 5) ∧
    refMaximise storeDiffValuation 12 true (Board.mk [1, 2] [2, 1] 0 0 false) 3
        (.TerminalBlackWin 0) (.TerminalWhiteWin 0) =
      .ok (⟨0, .White⟩, .TerminalDraw 4) ∧
    (minimax2Minimax storeDiffValuation 12 true
        (Board.mk [1, 2] [2, 1] 0 0 false) 3).map Prod.fst =
      some (.TerminalDraw 5) ∧
    (Valuation.TerminalDraw 5 : Valuation) ≠ .TerminalDraw 4 := by decide

/-- C4 counterexample: the `minimax_reference` worker does NOT return
cleanly when it observes `search_active == false` at a recursive entry — it
panics with "Could not complete minimax search to level 6" (modelled as
`.error`), so "every search worker variant" fails. -/
theorem cancellation_claim_cex :
    refMinimise storeDiffValuation 10 false (Board.mk [1] [1] 0 0 false) 3
        (.TerminalBlackWin 0) (.TerminalWhiteWin 0) =
      .error "Could not complete minimax search to level 6" ∧
    refMaximise storeDiffValuation 10 false (Board.mk [1] [1] 0 0 false) 3
        (.TerminalBlackWin 0) (.TerminalWhiteWin 0) =
      .error "Could not complete minimax search to level 6" := by decide

/-- C4 (amended): the PVS worker treats an inactive flag as a clean stop —
its recursive search returns `NonTerminal 0` immediately, leaves the
principal line exactly as it was (so the last published line remains the
decision) and visits no node; the `minimax_reference` worker instead panics
on both its `maximise` and `minimise` entries. -/
theorem cancellation_behaviour_amended :
    (∀ (vfn : Board → Valuation) (fuel : Nat) (b : Board) (d : Nat)
        (a beta : Valuation) (line : Line),
      pvsMinimax vfn (fuel + 1) false b d a beta line =
        .ok (.NonTerminal 0, line, 0)) ∧
    (∀ (vfn : Board → Valuation) (fuel : Nat) (b : Board) (d : Nat)
        (a beta : Valuation),
      refMaximise vfn (fuel + 1) false b d a beta =
        .error "Could not complete minimax search to level 6") ∧
    (∀ (vfn : Board → Valuation) (fuel : Nat) (b : Board) (d : Nat)
        (a beta : Valuation),
      refMinimise vfn (fuel + 1) false b d a beta =
        .error "Could not complete minimax search to level 6") :=
  ⟨pvsMinimax_cancelled, refMaximise_cancelled, refMinimise_cancelled⟩

/-- C7 counterexample: the recursive search of the `minimax2` worker does
not check the shared flag at all.  With the flag false throughout, on the
one-house board [1]/[1] at depth 1 it still visits 2 nodes (the root and the
bonus child) and evaluates boards, returning the full search value — while
the PVS worker on the same input returns immediately with 0 nodes visited
and its line untouched. -/
theorem flag_checked_claim_cex :
    minimax2Minimax storeDiffValuation 10 false (Board.mk [1] [1] 0 0 false) 1 =
      some (.TerminalDraw 1, 2) ∧
    pvsMinimax storeDiffValuation 10 false (Board.mk [1] [1] 0 0 false) 1
        (.TerminalBlackWin 0) (.TerminalWhiteWin 0) Line.new =
      .ok (.NonTerminal 0, Line.new, 0) := by decide

/-- C7 (amended): the PVS worker checks the shared flag on every recursive
entry and, once it is false, every call returns immediately without
visiting children or evaluating the board; the `minimax2` worker's recursive
search never reads the flag — its result is independent of the flag's value
(only the iterative-deepening driver checks, once per root move). -/
theorem flag_checked_amended :
    (∀ (vfn : Board → Valuation) (fuel : Nat) (b : Board) (d : Nat)
        (a beta : Valuation) (line : Line),
      pvsMinimax vfn (fuel + 1) false b d a beta line =
        .ok (.NonTerminal 0, line, 0)) ∧
    (∀ (vfn : Board → Valuation) (fuel : Nat) (a1 a2 : Bool) (b : Board) (d : Nat),
      minimax2Minimax vfn fuel a1 b d = minimax2Minimax vfn fuel a2 b d) :=
  ⟨pvsMinimax_cancelled, fun vfn fuel => minimax2_flag_independent vfn fuel⟩

/-- C2 counterexample: negation does not reverse the order between two draws
(`Draw 0 < Draw 1` but negation fixes draws, so the negations compare the
same way, not reversed), and the comparator returns `Equal` on the distinct
valuations `NonTerminal 0` and `TerminalDraw 5`, so `cmp` is not
antisymmetric as an order on values. -/
theorem valuation_order_claim_cex :
    (Valuation.TerminalDraw 0).cmp (Valuation.TerminalDraw 1) = .lt ∧
      (Valuation.TerminalDraw 0).neg.cmp (Valuation.TerminalDraw 1).neg = .lt ∧
      ¬((Valuation.TerminalDraw 1).neg.cmp (Valuation.TerminalDraw 0).neg = .lt) ∧
      (Valuation.NonTerminal 0).cmp (Valuation.TerminalDraw 5) = .eq ∧
      Valuation.NonTerminal 0 ≠ Valuation.TerminalDraw 5 := by decide

/-- C2 (amended): the comparator is a total preorder whose strict part is
transitive and antisymmetric (`cmp a b = (cmp b a).swap`), negation is an
involution, and negation reverses the strict order except when both
valuations are draws, where it preserves it (draws are fixed by negation and
longer draws rank higher from either perspective). -/
theorem valuation_order_amended :
    (∀ a b c : Valuation, a.cmp b = .lt → b.cmp c = .lt → a.cmp c = .lt) ∧
      (∀ a b : Valuation, a.cmp b = (b.cmp a).swap) ∧
      (∀ v : Valuation, v.neg.neg = v) ∧
      (∀ a b : Valuation, a.cmp b = .lt →
        ¬(a.isTerminalDraw ∧ b.isTerminalDraw) → b.neg.cmp a.neg = .lt) ∧
      (∀ p q : Nat, p < q →
        (Valuation.TerminalDraw p).neg.cmp (Valuation.TerminalDraw q).neg = .lt) :=
  ⟨fun _ _ _ => valuation_cmp_trans, valuation_cmp_antisymm, valuation_neg_neg,
    fun _ _ => valuation_neg_reverses, fun _ _ => valuation_neg_preserves_draws⟩

/-- C2 witness: the amended ordering facts applied at concrete valuations. -/
theorem valuation_order_amended_witness :
    (Valuation.TerminalBlackWin 0).cmp (Valuation.TerminalWhiteWin 3) = .lt ∧
      (Valuation.NonTerminal 5).neg.cmp (Valuation.TerminalBlackWin 1).neg = .lt ∧
      (Valuation.TerminalDraw 0).neg.cmp (Valuation.TerminalDraw 1).neg = .lt :=
  ⟨valuation_order_amended.1 (.TerminalBlackWin 0) (.NonTerminal (-1))
      (.TerminalWhiteWin 3) (by decide) (by decide),
    valuation_order_amended.2.2.2.1 (.TerminalBlackWin 1) (.NonTerminal 5)
      (by decide) (by decide),
    valuation_order_amended.2.2.2.2 0 1 (by decide)⟩

/-- C6 counterexample: a combined length of exactly `LINE_MAX_SIZE = 100`
does not exceed the bound, yet both `append` (50 + 50) and `overwrite`
(1 + 99) fail on it, because the assertions require the combined length to
stay strictly below `LINE_MAX_SIZE`. -/
theorem line_bound_claim_cex :
    (Line.mk (List.replicate 50 ⟨0, .White⟩)).append
        (Line.mk (List.replicate 50 ⟨0, .White⟩)) = none ∧
      Line.overwrite ⟨0, .White⟩ (Line.mk (List.replicate 99 ⟨0, .White⟩)) = none ∧
      50 + 50 ≤ LINE_MAX_SIZE ∧ 1 + 99 ≤ LINE_MAX_SIZE := by decide

/-- C6 (amended): `append` succeeds exactly when the combined length is
strictly below `LINE_MAX_SIZE` and then produces the concatenation;
`overwrite` succeeds exactly when `1 + tail.len` is strictly below
`LINE_MAX_SIZE` and then produces the head-prefixed tail. -/
theorem line_append_overwrite_amended (l1 l2 : Line) (head : Move) :
    ((l1.append l2).isSome = true ↔
        l1.moves.length + l2.moves.length < LINE_MAX_SIZE) ∧
      (l1.moves.length + l2.moves.length < LINE_MAX_SIZE →
        l1.append l2 = some ⟨l1.moves ++ l2.moves⟩) ∧
      ((Line.overwrite head l2).isSome = true ↔
        1 + l2.moves.length < LINE_MAX_SIZE) ∧
      (1 + l2.moves.length < LINE_MAX_SIZE →
        Line.overwrite head l2 = some ⟨head :: l2.moves⟩) := by
  unfold Line.overwrite Line.append
  simp only [List.length_cons, List.length_nil]
  split_ifs <;> simp_all <;> omega

/-- C6 witness: appending two short lines concatenates them; overwriting
prefixes the head move. -/
theorem line_append_overwrite_amended_witness :
    (Line.mk [⟨1, .White⟩]).append (Line.mk [⟨2, .Black⟩]) =
        some (Line.mk [⟨1, .White⟩, ⟨2, .Black⟩]) ∧
      Line.overwrite ⟨3, .White⟩ (Line.mk [⟨2, .Black⟩]) =
        some (Line.mk [⟨3, .White⟩, ⟨2, .Black⟩]) :=
  ⟨(line_append_overwrite_amended ⟨[⟨1, .White⟩]⟩ ⟨[⟨2, .Black⟩]⟩ ⟨3, .White⟩).2.1
      (by decide),
    (line_append_overwrite_amended ⟨[⟨1, .White⟩]⟩ ⟨[⟨2, .Black⟩]⟩ ⟨3, .White⟩).2.2.2
      (by decide)⟩

end Kalah
